import Mathlib

/-!
Verification development for the tncontract one-dimensional tensor-network
module (src/tncontract/one_dimension.py).

The module manipulates chains of labelled tensors (matrix product states).
The generic labelled-tensor algebra (tncontract/tensor.py, plus numpy) is an
external collaborator that is not part of the analysed source; following the
specification it is treated as a primitive algebra.  We therefore embed a
tensor as a list of labelled axes (label together with the axis dimension,
both bookkept concretely, exactly as the python code observes them through
labels and data.shape) together with an abstract data payload of type D.
Every operation of the external algebra that the analysed source invokes is
a field of the TensorOps record; operations whose label/shape behaviour the
specification pins down (contract, tensor product, label replacement, dummy
axes) are given concretely at the label/shape level, with only their numeric
payload action abstracted.

Python-level partiality (IndexError, ValueError, LinAlgError, label lookup
failures) is modelled in the Option monad; negative indices wrap around as
in python.  Scalars are modelled by rationals.
-/

namespace TNC

/-- A labelled tensor: a list of axes, each an axis label paired with the
axis dimension, plus an abstract numeric payload. -/
structure Tensor (D : Type) where
  axes : List (String × Nat)
  data : D
deriving DecidableEq, Repr

namespace Tensor

/-- The axis labels of a tensor, in axis order. -/
def labels {D : Type} (t : Tensor D) : List String := t.axes.map Prod.fst

/-- The shape of a tensor, in axis order. -/
def shape {D : Type} (t : Tensor D) : List Nat := t.axes.map Prod.snd

/-- Dimension of the first axis carrying the given label (0 if absent). -/
def dimOf {D : Type} (t : Tensor D) (l : String) : Nat :=
  ((t.axes.find? (fun a => a.1 = l)).map Prod.snd).getD 0

end Tensor

/-- Modelled from the spec: the external tensor-algebra and numpy operations
invoked by one_dimension.py, abstracted over the numeric payload type D.
Label and shape bookkeeping is done outside this record; these fields carry
only the payload-level effect of each primitive. -/
structure TensorOps (D : Type) where
  /-- payload of contract(A, B, labelsA, labelsB) -/
  contractData : Tensor D → Tensor D → List String → List String → D
  /-- payload of tensor_product(A, B) -/
  tensorProductData : Tensor D → Tensor D → D
  /-- in-place complex conjugation of a payload -/
  conjData : D → D
  /-- payload effect of add_dummy_index -/
  addDummyData : D → D
  /-- tensor_svd(t, rowLabels); none models a numpy LinAlgError -/
  svd : Tensor D → List String → Option (Tensor D × Tensor D × Tensor D)
  /-- np.diag of a (diagonal) matrix payload: its diagonal entries -/
  diagPart : D → List ℚ
  /-- np.diag of a vector: a diagonal-matrix payload -/
  diagBuild : List ℚ → D
  /-- slicing data[:, :, 0:k] of a rank-3 payload -/
  sliceThird : D → Nat → D
  /-- slicing data[0:k] of a payload -/
  sliceFirst : D → Nat → D
  /-- scalar multiplication of a payload -/
  scale : ℚ → D → D
  /-- np.linalg.norm of a payload -/
  normVal : D → ℚ
  /-- Frobenius norm of (matrix payload minus the identity of given size) -/
  normDiffId : D → Nat → ℚ
  /-- np.identity(n) as a payload -/
  identityData : Nat → D
  /-- payload effect of move_index (from axis position, to axis position) -/
  moveAxisData : D → Nat → Nat → D
  /-- np.reshape(data, newShape) -/
  reshapeData : D → List Nat → D
  /-- data.flatten() -/
  flattenData : D → D
  /-- np.linalg.solve(A, b); none models a singular system -/
  solve : D → D → Option D
  /-- payload effect of consolidate_indices -/
  consolidateData : Tensor D → D
  /-- payload effect of remove_all_dummy_indices -/
  removeDummiesData : Tensor D → D

variable {D : Type}

/-- Python list indexing with wrap-around for negative indices; none models
an IndexError. -/
def pyGet (xs : List α) (i : ℤ) : Option α :=
  if 0 ≤ i then xs.get? i.toNat
  else if (-i).toNat ≤ xs.length then xs.get? (xs.length - (-i).toNat)
  else none

/-- Python list item assignment with wrap-around for negative indices. -/
def pySet (xs : List α) (i : ℤ) (v : α) : Option (List α) :=
  if 0 ≤ i then
    if i.toNat < xs.length then some (xs.set i.toNat v) else none
  else if (-i).toNat ≤ xs.length then some (xs.set (xs.length - (-i).toNat) v)
  else none

/-- Python range(a, b) as a list of integers. -/
def intRange (a b : ℤ) : List ℤ :=
  (List.range (b - a).toNat).map (fun k => a + (k : ℤ))

/-- Python range(a, b, -1) as a list of integers (a, a-1, ..., b+1). -/
def intRangeDown (a b : ℤ) : List ℤ :=
  (List.range (a - b).toNat).map (fun k => a - (k : ℤ))

/-- Modelled from the spec: Tensor.replace_label for a single label; every
axis carrying the old label is relabelled. -/
def replaceLabel (t : Tensor D) (old new : String) : Tensor D :=
  { t with axes := t.axes.map (fun a => if a.1 = old then (new, a.2) else a) }

/-- Simultaneous lookup of a label in an old/new label correspondence. -/
def lookupNew (olds news : List String) (l : String) : String :=
  match (olds.zip news).find? (fun p => p.1 = l) with
  | some p => p.2
  | none => l

/-- Modelled from the spec: Tensor.replace_label for lists of labels, a
simultaneous relabelling. -/
def replaceLabels (t : Tensor D) (olds news : List String) : Tensor D :=
  { t with axes := t.axes.map (fun a => (lookupNew olds news a.1, a.2)) }

/-- Modelled from the spec: Tensor.add_dummy_index appends a fresh axis of
dimension 1 with the given label. -/
def addDummyIndex (ops : TensorOps D) (t : Tensor D) (l : String) : Tensor D :=
  { axes := t.axes ++ [(l, 1)], data := ops.addDummyData t.data }

/-- Remove, for each label of the given list in turn, the first axis carrying
that label. -/
def removeAxes (axes : List (String × Nat)) : List String → List (String × Nat)
  | [] => axes
  | l :: ls => removeAxes (axes.eraseP (fun a => a.1 = l)) ls

/-- Modelled from the spec: contract(A, B, labelsA, labelsB).  The contracted
axes are removed; the result carries the remaining axes of A followed by the
remaining axes of B.  Contraction over a label a tensor does not carry is an
error. -/
def contract (ops : TensorOps D) (A B : Tensor D) (la lb : List String) :
    Option (Tensor D) :=
  if la.all (fun l => A.labels.contains l) && lb.all (fun l => B.labels.contains l)
  then some { axes := removeAxes A.axes la ++ removeAxes B.axes lb,
              data := ops.contractData A B la lb }
  else none

/-- Modelled from the spec: tensor_product(A, B). -/
def tensorProduct (ops : TensorOps D) (A B : Tensor D) : Tensor D :=
  { axes := A.axes ++ B.axes, data := ops.tensorProductData A B }

/-- Modelled from the spec: Tensor.conjugate (in-place complex conjugation;
labels and shape unchanged). -/
def conjTensor (ops : TensorOps D) (t : Tensor D) : Tensor D :=
  { t with data := ops.conjData t.data }

/-- Modelled from the spec: Tensor.move_index(label, position): the first
axis carrying the label is moved to the given position. -/
def moveIndex (ops : TensorOps D) (t : Tensor D) (l : String) (pos : Nat) :
    Option (Tensor D) :=
  match t.axes.findIdx? (fun a => a.1 = l) with
  | none => none
  | some i =>
    match t.axes.get? i with
    | none => none
    | some ax =>
      some { axes := (t.axes.eraseIdx i).insertIdx pos ax,
             data := ops.moveAxisData t.data i pos }

/-- Modelled from the spec: Tensor.consolidate_indices merges repeated
labels; the payload effect is abstract, the resulting axes keep the first
occurrence of every label with the product of the merged dimensions. -/
def consolidateIndices (ops : TensorOps D) (t : Tensor D) : Tensor D :=
  { axes := (t.labels.dedup).map
      (fun l => (l, ((t.axes.filter (fun a => a.1 = l)).map Prod.snd).prod)),
    data := ops.consolidateData t }

/-- Modelled from the spec: Tensor.remove_all_dummy_indices strips every axis
of dimension 1. -/
def removeAllDummyIndices (ops : TensorOps D) (t : Tensor D) : Tensor D :=
  { axes := t.axes.filter (fun a => ¬ a.2 = 1),
    data := ops.removeDummiesData t }

/-- OneDimensionalTensorNetwork: an ordered chain of tensors with the two
virtual-axis role bindings. -/
structure OneDimensionalTensorNetwork (D : Type) where
  data : List (Tensor D)
  left_label : String
  right_label : String
deriving DecidableEq, Repr

/-- OneDimensionalTensorNetwork.__init__: copy the input tensors, adding a
dummy left axis and then a dummy right axis to any tensor missing them. -/
def mkOTN (ops : TensorOps D) (ts : List (Tensor D)) (l r : String) :
    OneDimensionalTensorNetwork D :=
  { data := ts.map (fun t =>
      let t1 := if t.labels.contains l then t else addDummyIndex ops t l
      if t1.labels.contains r then t1 else addDummyIndex ops t1 r),
    left_label := l, right_label := r }

/-- OneDimensionalTensorNetwork.reverse: reverse the tensor sequence and swap
the left/right role bindings. -/
def OneDimensionalTensorNetwork.reverse (n : OneDimensionalTensorNetwork D) :
    OneDimensionalTensorNetwork D :=
  { data := n.data.reverse, left_label := n.right_label,
    right_label := n.left_label }

/-- MatrixProductState: a chain plus the physical-axis role binding. -/
structure MatrixProductState (D : Type) where
  data : List (Tensor D)
  left_label : String
  right_label : String
  phys_label : String
deriving DecidableEq, Repr

/-- MatrixProductState.__init__ (constructor including the dummy-axis
normalisation inherited from the chain container). -/
def mkMPS (ops : TensorOps D) (ts : List (Tensor D)) (l r p : String) :
    MatrixProductState D :=
  { data := (mkOTN ops ts l r).data, left_label := l, right_label := r,
    phys_label := p }

/-- MatrixProductState.reverse (inherited from the chain container; the
physical binding is untouched). -/
def MatrixProductState.reverse (m : MatrixProductState D) :
    MatrixProductState D :=
  { data := m.data.reverse, left_label := m.right_label,
    right_label := m.left_label, phys_label := m.phys_label }

end TNC

namespace TNC

variable {D : Type}

/-- Default SVD truncation threshold of the canonisation methods (10**-14). -/
def defaultThreshold : ℚ := 1 / 100000000000000

/-- Lines 92-94 of one_dimension.py: from the already normalised singular
values keep those strictly greater than the threshold, then, if chi is
nonzero, keep only the first chi of them. -/
def keptSingularValues (svn : List ℚ) (threshold : ℚ) (chi : Nat) : List ℚ :=
  let kept := svn.filter (fun x => threshold < x)
  if chi ≠ 0 then kept.take chi else kept

/-- S.data = np.diag(kept) on the (rank-2) singular-value tensor: the payload
becomes the diagonal matrix of the kept values and both axis dimensions
become the kept count. -/
def setDiagTensor (ops : TensorOps D) (S : Tensor D) (kept : List ℚ) :
    Option (Tensor D) :=
  match S.axes with
  | [a, b] => some { axes := [(a.1, kept.length), (b.1, kept.length)],
                     data := ops.diagBuild kept }
  | _ => none

/-- U.data = U.data[:, :, 0:k] on a rank-3 tensor. -/
def sliceThirdAxis (ops : TensorOps D) (U : Tensor D) (k : Nat) :
    Option (Tensor D) :=
  match U.axes with
  | [a, b, c] => some { axes := [a, b, (c.1, min k c.2)],
                        data := ops.sliceThird U.data k }
  | _ => none

/-- V.data = V.data[0:k]. -/
def sliceFirstAxis (ops : TensorOps D) (V : Tensor D) (k : Nat) :
    Option (Tensor D) :=
  match V.axes with
  | [] => none
  | a :: rest => some { axes := (a.1, min k a.2) :: rest,
                        data := ops.sliceFirst V.data k }

/-- One non-terminal step of MatrixProductState.left_canonise at site i
(lines 82-104 of one_dimension.py): SVD the site over the physical and left
axes, normalise the singular values by the largest one (accumulating it into
the running norm), truncate, write U back at site i and absorb S.V into site
i+1. -/
def leftCanoniseStep (ops : TensorOps D) (m : MatrixProductState D) (i : ℤ)
    (chi : Nat) (threshold : ℚ) (norm : ℚ) :
    Option (MatrixProductState D × ℚ) := do
  let t ← pyGet m.data i
  let (U, S, V) ← ops.svd t [m.phys_label, m.left_label]
  let sv := ops.diagPart S.data
  let largest ← sv.head?
  let svn := sv.map (fun x => x / largest)
  let norm2 := norm * largest
  let kept := keptSingularValues svn threshold chi
  let S2 ← setDiagTensor ops S kept
  let U2 ← sliceThirdAxis ops U kept.length
  let V2 ← sliceFirstAxis ops V kept.length
  let U3 := replaceLabel U2 "svd_in" m.right_label
  let d1 ← pySet m.data i U3
  let nb ← pyGet d1 (i + 1)
  let c1 ← contract ops V2 nb [m.right_label] [m.left_label]
  let c2 ← contract ops S2 c1 ["svd_in"] ["svd_out"]
  let c3 := replaceLabel c2 "svd_out" m.left_label
  let d2 ← pySet d1 (i + 1) c3
  pure ({ m with data := d2 }, norm2)

/-- The terminal branch of left_canonise at the final site of the chain
(lines 74-80): normalise the final tensor, or multiply the accumulated norm
into it, and stop.  The python method then returns None. -/
def lcFinalise (ops : TensorOps D) (m : MatrixProductState D) (i : ℤ)
    (normalise : Bool) (norm : ℚ) : Option (MatrixProductState D) := do
  let t ← pyGet m.data i
  let t2 := if normalise
    then { t with data := ops.scale (1 / ops.normVal t.data) t.data }
    else { t with data := ops.scale norm t.data }
  let d ← pySet m.data i t2
  pure { m with data := d }

/-- The sweep loop of left_canonise over the given index list, threading the
chain and the norm accumulator.  Reaching the final site of the chain stops
the sweep (the python return); at the last index of a partial sweep the
accumulated norm is absorbed into the right neighbour unless
partial_normalise is set. -/
def lcLoop (ops : TensorOps D) (N : Nat) (endI : ℤ) (chi : Nat)
    (threshold : ℚ) (normalise partialNormalise : Bool) :
    List ℤ → MatrixProductState D → ℚ → Option (MatrixProductState D)
  | [], m, _ => some m
  | i :: rest, m, norm =>
    if i = (N : ℤ) - 1 then lcFinalise ops m i normalise norm
    else do
      let (m2, norm2) ← leftCanoniseStep ops m i chi threshold norm
      let m3 ←
        if i = endI - 1 ∧ partialNormalise = false then do
          let t ← pyGet m2.data (i + 1)
          let d ← pySet m2.data (i + 1) { t with data := ops.scale norm2 t.data }
          pure { m2 with data := d }
        else pure m2
      lcLoop ops N endI chi threshold normalise partialNormalise rest m3 norm2

/-- MatrixProductState.left_canonise(start, end, chi, threshold, normalise,
partial_normalise).  The python defaults are start=0, end=-1, chi=0,
threshold=10**-14, normalise=False, partial_normalise=True; end=-1 means the
end of the chain.  The method mutates the chain and returns None; the
embedding returns the mutated chain, none modelling a raised exception. -/
def leftCanonise (ops : TensorOps D) (m : MatrixProductState D)
    (start : ℤ := 0) (endI : ℤ := -1) (chi : Nat := 0)
    (threshold : ℚ := defaultThreshold) (normalise : Bool := false)
    (partialNormalise : Bool := true) : Option (MatrixProductState D) :=
  let N := m.data.length
  let e : ℤ := if endI = -1 then (N : ℤ) else endI
  lcLoop ops N e chi threshold normalise partialNormalise (intRange start e) m 1

/-- MatrixProductState.right_canonise(start, end, chi, threshold, normalise,
partial_normalise), python defaults start=0, end=-1, chi=0,
threshold=10**-14, normalise=False, partial_normalise=False: reverse the
chain, left-canonise the mirrored interval, reverse back.  Note line 125 of
the source passes chi=0 to left_canonise. -/
def rightCanonise (ops : TensorOps D) (m : MatrixProductState D)
    (start : ℤ := 0) (endI : ℤ := -1) (chi : Nat := 0)
    (threshold : ℚ := defaultThreshold) (normalise : Bool := false)
    (partialNormalise : Bool := false) : Option (MatrixProductState D) :=
  let m1 := m.reverse
  let N := m1.data.length
  let e : ℤ := if endI = -1 then (N : ℤ) else endI
  (leftCanonise ops m1 ((N : ℤ) - e) ((N : ℤ) - start) 0 threshold normalise
      partialNormalise).map MatrixProductState.reverse

/-- Lines 134-139 of one_dimension.py: replace None entries of the new-label
list by the corresponding old label. -/
def newLabelsFrom (olds : List String) (args : List (Option String)) :
    List String :=
  (olds.zip args).map (fun p => p.2.getD p.1)

/-- The state of a MatrixProductState after
replace_left_right_phys_labels: the python attributes may hold None. -/
structure MPSOptLabels (D : Type) where
  data : List (Tensor D)
  left_label : Option String
  right_label : Option String
  phys_label : Option String
deriving DecidableEq, Repr

/-- MatrixProductState.replace_left_right_phys_labels(new_left_label,
new_right_label, new_phys_label): every tensor is relabelled with the
None-defaulted new labels, but the three attributes are assigned the raw
arguments (lines 143-145), including None. -/
def replaceLeftRightPhysLabels (m : MatrixProductState D)
    (nl nr np : Option String) : MPSOptLabels D :=
  let olds := [m.left_label, m.right_label, m.phys_label]
  let news := newLabelsFrom olds [nl, nr, np]
  { data := m.data.map (fun t => replaceLabels t olds news),
    left_label := nl, right_label := nr, phys_label := np }

/-- The all-arguments-given instance of replace_left_right_phys_labels, as
used by standard_labels and by the label restoration of inner_product_mps;
in this case the attributes are the given strings. -/
def replaceLRPSome (m : MatrixProductState D) (l r p : String) :
    MatrixProductState D :=
  let olds := [m.left_label, m.right_label, m.phys_label]
  let news := newLabelsFrom olds [some l, some r, some p]
  { data := m.data.map (fun t => replaceLabels t olds news),
    left_label := l, right_label := r, phys_label := p }

/-- MatrixProductState.standard_labels(suffix). -/
def standardLabels (m : MatrixProductState D) (suffix : String := "") :
    MatrixProductState D :=
  replaceLRPSome m ("left" ++ suffix) ("right" ++ suffix) ("phys" ++ suffix)

/-- mps_complex_conjugate(mps): copy the chain and conjugate every payload
(labels unchanged). -/
def mpsComplexConjugate (ops : TensorOps D) (m : MatrixProductState D) :
    MatrixProductState D :=
  { m with data := m.data.map (conjTensor ops) }

/-- reverse_mps(mps): a new MatrixProductState built from the reversed copied
tensors with the left/right bindings swapped. -/
def reverseMps (ops : TensorOps D) (m : MatrixProductState D) :
    MatrixProductState D :=
  mkMPS ops m.data.reverse m.right_label m.left_label m.phys_label

/-- left_canonical_form_mps(orig_mps, chi, threshold, normalise): copy, then
left_canonise the whole chain (partial_normalise left at its default True). -/
def leftCanonicalFormMps (ops : TensorOps D) (m : MatrixProductState D)
    (chi : Nat := 0) (threshold : ℚ := defaultThreshold)
    (normalise : Bool := false) : Option (MatrixProductState D) :=
  leftCanonise ops m 0 (-1) chi threshold normalise true

/-- right_canonical_form_mps(orig_mps, chi, threshold, normalise). -/
def rightCanonicalFormMps (ops : TensorOps D) (m : MatrixProductState D)
    (chi : Nat := 0) (threshold : ℚ := defaultThreshold)
    (normalise : Bool := false) : Option (MatrixProductState D) := do
  let m2 ← leftCanonicalFormMps ops (reverseMps ops m) chi threshold normalise
  pure (reverseMps ops m2)

/-- svd_compress_mps(orig_mps, chi, threshold, normalise), python default
threshold 10**-15: left canonical form without truncation, then right
canonical form with bond cap chi. -/
def svdCompressMps (ops : TensorOps D) (m : MatrixProductState D) (chi : Nat)
    (threshold : ℚ := 1 / 1000000000000000) (normalise : Bool := false) :
    Option (MatrixProductState D) := do
  let m1 ← leftCanonicalFormMps ops m 0 threshold normalise
  rightCanonicalFormMps ops m1 chi threshold normalise

/-- The per-site deviation-from-identity test of check_canonical_form_mps:
contract the tensor with its conjugate over the given axes and compare the
Frobenius distance of the result from the identity with the threshold. -/
def devTest (ops : TensorOps D) (threshold : ℚ) (a b : Tensor D)
    (la lb : List String) : Option Bool := do
  let I ← contract ops a b la lb
  let n ← I.shape.head?
  pure (decide (threshold < ops.normDiffId I.data n))

/-- A python for-loop with break: return the first index of the list whose
test holds, the default when none does. -/
def scanFirstDev (dev : Nat → Option Bool) (dflt : Nat) :
    List Nat → Option Nat
  | [] => some dflt
  | i :: rest => do
    let b ← dev i
    if b then pure i else scanFirstDev dev dflt rest

/-- The list N-1, N-2, ..., 1 (python range(N-1, 0, -1)). -/
def natRangeDown (a : Nat) : List Nat := (List.range a).map (fun k => a - k)

/-- The left-scan deviation test of check_canonical_form_mps at site i. -/
def devLeftAt (ops : TensorOps D) (m cc : MatrixProductState D)
    (threshold : ℚ) (i : Nat) : Option Bool := do
  let t1 ← pyGet m.data (i : ℤ)
  let t2 ← pyGet cc.data (i : ℤ)
  devTest ops threshold t1 t2 [m.phys_label, m.left_label]
    [cc.phys_label, cc.left_label]

/-- The right-scan deviation test of check_canonical_form_mps at site i. -/
def devRightAt (ops : TensorOps D) (m cc : MatrixProductState D)
    (threshold : ℚ) (i : Nat) : Option Bool := do
  let t1 ← pyGet m.data (i : ℤ)
  let t2 ← pyGet cc.data (i : ℤ)
  devTest ops threshold t1 t2 [m.phys_label, m.right_label]
    [cc.phys_label, cc.right_label]

/-- check_canonical_form_mps(mps, threshold) (the returned pair; the
print_output reporting is diagnostic I/O and returns nothing): scan from the
left for the first site not left-canonised (default N-1), scan from the
right for the first site not right-canonised (default 0). -/
def checkCanonicalFormMps (ops : TensorOps D) (m : MatrixProductState D)
    (threshold : ℚ := defaultThreshold) : Option (Nat × Nat) := do
  let cc := mpsComplexConjugate ops m
  let N := m.data.length
  let L ← scanFirstDev (devLeftAt ops m cc threshold) (N - 1)
    (List.range (N - 1))
  let R ← scanFirstDev (devRightAt ops m cc threshold) 0 (natRangeDown (N - 1))
  pure (L, R)

/-- inner_product_mps(mps_bra, mps_ket, complex_conjugate_bra): conjugate (or
copy) the bra, relabel both chains to standard labels, contract left to
right, restore the ket labels, strip dummy axes.  The embedding returns the
resulting boundary tensor (whose payload the python function returns unless
return_whole_tensor) together with the caller-visible state of the ket chain
after the call. -/
def innerProductMps (ops : TensorOps D) (bra ket : MatrixProductState D)
    (ccBra : Bool := true) : Option (Tensor D × MatrixProductState D) := do
  let braCC := if ccBra then mpsComplexConjugate ops bra else bra
  let ket2 := standardLabels ket ""
  let bra2 := standardLabels braCC "_cc"
  let t0b ← pyGet bra2.data 0
  let t0k ← pyGet ket2.data 0
  let lb0 ← contract ops t0b t0k [bra2.phys_label] [ket2.phys_label]
  let lb ← (intRange 1 ket2.data.length).foldlM (fun acc i => do
      let tb ← pyGet bra2.data i
      let acc2 ← contract ops acc tb [bra2.right_label] [bra2.left_label]
      let tk ← pyGet ket2.data i
      contract ops acc2 tk [ket2.right_label, bra2.phys_label]
        [ket2.left_label, ket2.phys_label]) lb0
  let ketRestored := replaceLRPSome ket2 ket.left_label ket.right_label
    ket.phys_label
  pure (removeAllDummyIndices ops lb, ketRestored)

end TNC

namespace TNC

variable {D : Type}

/-- Lines 339-343 of one_dimension.py: the complex conjugate of the ansatz
chain, with the literal labels left/right renamed to left_cc/right_cc. -/
def ccOfAnsatz (ops : TensorOps D) (s : List (Tensor D)) : List (Tensor D) :=
  s.map (fun x =>
    replaceLabel (replaceLabel (conjTensor ops x) "left" "left_cc")
      "right" "right_cc")

/-- The right-boundary environment of variational_compress_mps: contract the
last ket tensor with the last conjugated ansatz tensor over the literal
label phys, then absorb sites n-2 down to i+1. -/
def envRightBoundary (ops : TensorOps D) (ket ccl : List (Tensor D))
    (n i : Nat) : Option (Tensor D) := do
  let tl ← pyGet ket (-1)
  let tc ← pyGet ccl (-1)
  let first ← contract ops tl tc ["phys"] ["phys"]
  (intRangeDown ((n : ℤ) - 2) (i : ℤ)).foldlM (fun rb j => do
      let tj ← pyGet ket j
      let rb2 ← contract ops rb tj ["left"] ["right"]
      let cj ← pyGet ccl j
      contract ops rb2 cj ["left_cc", "phys"] ["right_cc", "phys"]) first

/-- The left-boundary environment of variational_compress_mps: contract site
0 of the ket with site 0 of the conjugated ansatz over the literal label
phys, then absorb sites 1 up to i-1. -/
def envLeftBoundary (ops : TensorOps D) (ket ccl : List (Tensor D))
    (i : Nat) : Option (Tensor D) := do
  let t0 ← pyGet ket 0
  let c0 ← pyGet ccl 0
  let first ← contract ops t0 c0 ["phys"] ["phys"]
  (intRange 1 (i : ℤ)).foldlM (fun lb j => do
      let tj ← pyGet ket j
      let lb2 ← contract ops lb tj ["right"] ["left"]
      let cj ← pyGet ccl j
      contract ops lb2 cj ["right_cc", "phys"] ["left_cc", "phys"]) first

/-- The axis reordering, reshaping and dense solve of
variational_compress_mps at the first site (lines 400-413): row axes
left_cc, phys_cc, column axes left, phys; the updated tensor carries labels
right, phys. -/
def siteSolveFirst (ops : TensorOps D) (A b : Tensor D) : Option (Tensor D) := do
  let A1 ← moveIndex ops A "left_cc" 0
  let A2 ← moveIndex ops A1 "phys_cc" 1
  let A3 ← moveIndex ops A2 "left" 2
  let A4 ← moveIndex ops A3 "phys" 3
  let oldShape := A4.shape
  let Amat := ops.reshapeData A4.data
    [(oldShape.take 2).prod, ((oldShape.drop 2).take 2).prod]
  let b1 ← moveIndex ops b "left_cc" 0
  let minimum ← ops.solve Amat (ops.flattenData b1.data)
  let s0 ← oldShape.get? 0
  let s1 ← oldShape.get? 1
  pure { axes := [("right", s0), ("phys", s1)],
         data := ops.reshapeData minimum [s0, s1] }

/-- The solve of variational_compress_mps at the final site (lines
414-426). -/
def siteSolveLast (ops : TensorOps D) (A b : Tensor D) : Option (Tensor D) := do
  let A1 ← moveIndex ops A "right_cc" 0
  let A2 ← moveIndex ops A1 "phys_cc" 1
  let A3 ← moveIndex ops A2 "right" 2
  let A4 ← moveIndex ops A3 "phys" 3
  let oldShape := A4.shape
  let Amat := ops.reshapeData A4.data
    [(oldShape.take 2).prod, ((oldShape.drop 2).take 2).prod]
  let b1 ← moveIndex ops b "right_cc" 0
  let minimum ← ops.solve Amat (ops.flattenData b1.data)
  let s0 ← oldShape.get? 0
  let s1 ← oldShape.get? 1
  pure { axes := [("left", s0), ("phys", s1)],
         data := ops.reshapeData minimum [s0, s1] }

/-- The solve of variational_compress_mps at an interior site (lines
427-444), including the final consolidate_indices. -/
def siteSolveMid (ops : TensorOps D) (A b : Tensor D) : Option (Tensor D) := do
  let A1 ← moveIndex ops A "right_cc" 0
  let A2 ← moveIndex ops A1 "left_cc" 1
  let A3 ← moveIndex ops A2 "phys_cc" 2
  let A4 ← moveIndex ops A3 "right" 3
  let A5 ← moveIndex ops A4 "left" 4
  let A6 ← moveIndex ops A5 "phys" 5
  let oldShape := A6.shape
  let Amat := ops.reshapeData A6.data
    [(oldShape.take 3).prod, ((oldShape.drop 3).take 3).prod]
  let b1 ← moveIndex ops b "right_cc" 0
  let b2 ← moveIndex ops b1 "left_cc" 1
  let minimum ← ops.solve Amat (ops.flattenData b2.data)
  let s0 ← oldShape.get? 0
  let s1 ← oldShape.get? 1
  let s2 ← oldShape.get? 2
  pure (consolidateIndices ops
    { axes := [("left", s0), ("right", s1), ("phys", s2)],
      data := ops.reshapeData minimum [s0, s1, s2] })

/-- The per-site update of variational_compress_mps after the quadratic
boundary environments have been (conditionally) computed: build A from the
boundaries and the physical identity, build the linear environment b of the
original chain with the conjugated ansatz, and solve (lines 361-444).  A
boundary that was never assigned (python NameError, reachable for n=1) is
an error when forced. -/
def siteUpdateCore (ops : TensorOps D) (mpsData : List (Tensor D)) (n : Nat)
    (s : List (Tensor D)) (i : Nat) (ccl : List (Tensor D))
    (rbA lbA : Option (Tensor D)) : Option (Tensor D) := do
  let ti ← pyGet s (i : ℤ)
  let physIdx ← ti.labels.findIdx? (fun l => l = "phys")
  let physDim ← ti.shape.get? physIdx
  let IPhys : Tensor D :=
    { axes := [("phys_cc", physDim), ("phys", physDim)],
      data := ops.identityData physDim }
  let A ←
    if i = 0 then do
      let rb ← rbA
      pure (tensorProduct ops rb IPhys)
    else if i = n - 1 then do
      let lb ← lbA
      pure (tensorProduct ops lb IPhys)
    else do
      let lb ← lbA
      let rb ← rbA
      pure (tensorProduct ops (tensorProduct ops lb rb) IPhys)
  let rbB ← if i ≠ n - 1 then (envRightBoundary ops mpsData ccl n i).map some
            else pure none
  let lbB ← if i ≠ 0 then (envLeftBoundary ops mpsData ccl i).map some
            else pure none
  let b ←
    if i = 0 then do
      let t0 ← pyGet mpsData 0
      let rb ← rbB
      contract ops t0 rb ["right"] ["left"]
    else if i = n - 1 then do
      let lb ← lbB
      let tl ← pyGet mpsData (-1)
      contract ops lb tl ["right"] ["left"]
    else do
      let lb ← lbB
      let tmid ← pyGet mpsData (i : ℤ)
      let b1 ← contract ops lb tmid ["right"] ["left"]
      let rb ← rbB
      contract ops b1 rb ["right"] ["left"]
  if i = 0 then siteSolveFirst ops A b
  else if i = n - 1 then siteSolveLast ops A b
  else siteSolveMid ops A b

/-- The per-site update of variational_compress_mps (the body of the loop
over i, lines 338-445): build the conjugated ansatz, conditionally compute
the quadratic boundary environments, then assemble and solve the local
linear system.  All axes are addressed through the literal labels
left/right/phys (and their _cc variants). -/
def siteUpdate (ops : TensorOps D) (mpsData : List (Tensor D)) (n : Nat)
    (s : List (Tensor D)) (i : Nat) : Option (Tensor D) := do
  let ccl := ccOfAnsatz ops s
  let rbA ← if i ≠ n - 1 then (envRightBoundary ops s ccl n i).map some
            else pure none
  let lbA ← if i ≠ 0 then (envLeftBoundary ops s ccl i).map some
            else pure none
  siteUpdateCore ops mpsData n s i ccl rbA lbA

/-- One full left-to-right pass of variational_compress_mps: update the
ansatz tensor at every site 0, 1, ..., n-1 in order. -/
def sweepOnce (ops : TensorOps D) (mpsData : List (Tensor D)) (n : Nat)
    (s : MatrixProductState D) : Option (MatrixProductState D) :=
  (List.range n).foldlM (fun st i => do
      let t ← siteUpdate ops mpsData n st.data i
      let d ← pySet st.data (i : ℤ) t
      pure { st with data := d }) s

/-- variational_compress_mps(mps, chi, max_iter), python default max_iter=20:
seed the ansatz with svd_compress_mps at threshold 10**-15, then run max_iter
full left-to-right passes. -/
def variationalCompressMps (ops : TensorOps D) (m : MatrixProductState D)
    (chi : Nat) (maxIter : Nat := 20) : Option (MatrixProductState D) := do
  let n := m.data.length
  let seed ← svdCompressMps ops m chi (1 / 1000000000000000) false
  (List.range maxIter).foldlM (fun s _k => sweepOnce ops m.data n s) seed

end TNC

namespace TNC

/-- A concrete instantiation of the external algebra over a trivial payload,
parameterised by the singular-value diagonal the SVD oracle reports.  The
oracle returns the standard well-formed axes: U carries the row labels with
their dimensions plus a fresh svd_in bond, S is square on svd_in/svd_out, V
carries svd_out plus the remaining axes of the input. -/
def unitOps (svdiag : List ℚ) : TensorOps Unit where
  contractData := fun _ _ _ _ => ()
  tensorProductData := fun _ _ => ()
  conjData := fun _ => ()
  addDummyData := fun _ => ()
  svd := fun t rl => some
    ({ axes := rl.map (fun l => (l, t.dimOf l)) ++ [("svd_in", svdiag.length)],
       data := () },
     { axes := [("svd_in", svdiag.length), ("svd_out", svdiag.length)],
       data := () },
     { axes := ("svd_out", svdiag.length) :: removeAxes t.axes rl, data := () })
  diagPart := fun _ => svdiag
  diagBuild := fun _ => ()
  sliceThird := fun _ _ => ()
  sliceFirst := fun _ _ => ()
  scale := fun _ _ => ()
  normVal := fun _ => 1
  normDiffId := fun _ _ => 0
  identityData := fun _ => ()
  moveAxisData := fun _ _ _ => ()
  reshapeData := fun _ _ => ()
  flattenData := fun _ => ()
  solve := fun _ _ => some ()
  consolidateData := fun _ => ()
  removeDummiesData := fun _ => ()

/-- A two-site matrix product state over the trivial payload with bindings
L, R, P: physical dimension 2 and internal bond dimension 2. -/
def mps2 : MatrixProductState Unit :=
  { data := [{ axes := [("P", 2), ("L", 1), ("R", 2)], data := () },
             { axes := [("P", 2), ("L", 2), ("R", 1)], data := () }],
    left_label := "L", right_label := "R", phys_label := "P" }

end TNC

namespace TNC

variable {D : Type}

/-- The amended reading of right_canonise: reverse the chain, left-canonise
the mirrored interval with chi = 0 (the chi argument of right_canonise is
discarded by line 125 of the source) and the same threshold, normalise and
partial_normalise arguments, and reverse back. -/
def rightCanoniseMirror (ops : TensorOps D) (m : MatrixProductState D)
    (start endI : ℤ) (threshold : ℚ) (normalise partialNormalise : Bool) :
    Option (MatrixProductState D) :=
  let m1 := m.reverse
  let N := m1.data.length
  let e : ℤ := if endI = -1 then (N : ℤ) else endI
  (leftCanonise ops m1 ((N : ℤ) - e) ((N : ℤ) - start) 0 threshold normalise
      partialNormalise).map MatrixProductState.reverse

/-- C10: reverse is an involution on one-dimensional tensor networks and on
matrix product states - a double reverse restores the tensor sequence and
the left/right bindings exactly, and a single reverse only permutes the
tensors, leaving every tensor itself (labels and payload) unchanged. -/
theorem c10_reverse_involution (n : OneDimensionalTensorNetwork D)
    (m : MatrixProductState D) :
    n.reverse.reverse = n ∧ m.reverse.reverse = m ∧
      (∀ t, t ∈ n.reverse.data ↔ t ∈ n.data) ∧
      (∀ t, t ∈ m.reverse.data ↔ t ∈ m.data) := by
  obtain ⟨nd, nl, nr⟩ := n
  obtain ⟨md, ml, mr, mp⟩ := m
  refine ⟨?_, ?_, ?_, ?_⟩ <;>
    simp [OneDimensionalTensorNetwork.reverse, MatrixProductState.reverse]

/-- C1 counterexample: on a two-site chain with singular values (1, 1/2) and
bond cap chi = 1, right_canonise(start=0, end=2, chi=1) differs from the
composition reverse, then left_canonise on the mirrored interval [0, 2) with
the same chi = 1, then reverse: the source passes chi=0 to left_canonise, so
the bond is not truncated. -/
theorem c1_counterexample :
    rightCanonise (unitOps [1, (1 : ℚ)/2]) mps2 0 2 1 defaultThreshold
        false false ≠
      (leftCanonise (unitOps [1, (1 : ℚ)/2]) mps2.reverse 0 2 1
          defaultThreshold false false).map MatrixProductState.reverse := by
  with_unfolding_all decide

/-- C1 (amended): right_canonise(start, end, chi, threshold, normalise,
partial_normalise) is exactly: reverse the chain, run left_canonise on the
mirrored interval [N-end, N-start) with chi = 0 (the chi argument is
discarded, not forwarded) and the same threshold, normalise and
partial_normalise arguments, and reverse back (defaults
partial_normalise=false for right_canonise, true for left_canonise). -/
theorem c1_right_canonise_is_mirrored_left_canonise (ops : TensorOps D)
    (m : MatrixProductState D) (start endI : ℤ) (chi : Nat) (threshold : ℚ)
    (normalise partialNormalise : Bool) :
    rightCanonise ops m start endI chi threshold normalise partialNormalise =
      rightCanoniseMirror ops m start endI threshold normalise
        partialNormalise := rfl

end TNC

namespace TNC

variable {D : Type}

/-- An attribute names a role every tensor actually carries. -/
def bindingNamed (o : Option String) (ts : List (Tensor D)) : Bool :=
  match o with
  | some l => ts.all (fun t => t.labels.contains l)
  | none => false

/-- Consistency of the chain attributes with the tensor labels: each of the
three role attributes holds a label that every tensor carries. -/
def consistentLabels (m : MPSOptLabels D) : Bool :=
  bindingNamed m.left_label m.data && bindingNamed m.right_label m.data &&
    bindingNamed m.phys_label m.data

/-- The attribute state of a MatrixProductState before any rename (all three
attributes are honest strings). -/
def MatrixProductState.toOptLabels (m : MatrixProductState D) :
    MPSOptLabels D :=
  { data := m.data, left_label := some m.left_label,
    right_label := some m.right_label, phys_label := some m.phys_label }

/-- C5 (code bug): replace_left_right_phys_labels with new_left_label=None
leaves every tensor carrying the old left label (per the docstring, None
means do not replace) but assigns the raw None to the left_label attribute
(line 143), so the container attribute no longer names the axis role the
tensors carry: the consistent chain mps2 becomes inconsistent. -/
theorem c5_none_arg_breaks_label_consistency :
    consistentLabels mps2.toOptLabels = true ∧
    consistentLabels (replaceLeftRightPhysLabels mps2 none (some "R2")
      (some "P2")) = false ∧
    (replaceLeftRightPhysLabels mps2 none (some "R2") (some "P2")).left_label
      = none ∧
    (∀ t ∈ (replaceLeftRightPhysLabels mps2 none (some "R2")
      (some "P2")).data, "L" ∈ t.labels) := by
  refine ⟨by decide, by decide, rfl, by decide⟩

/-- The largest singular value, as the specification describes it. -/
def maxSingular (sv : List ℚ) : ℚ := sv.foldr max 0

/-- The truncation rule as the specification states it: normalise by the
largest singular value, keep the values strictly greater than the threshold,
then cap the kept count at chiMax when chiMax is positive. -/
def keptSpecOfClaim (sv : List ℚ) (threshold : ℚ) (chiMax : Nat) : List ℚ :=
  let normalized := sv.map (fun x => x / maxSingular sv)
  let afterThreshold := normalized.filter (fun x => threshold < x)
  if chiMax = 0 then afterThreshold else afterThreshold.take chiMax

lemma foldr_max_le (sv : List ℚ) (a : ℚ) (h0 : 0 ≤ a)
    (h : ∀ x ∈ sv, x ≤ a) : sv.foldr max 0 ≤ a := by
  induction sv with
  | nil => simpa using h0
  | cons y ys ih =>
    simp only [List.foldr_cons, max_le_iff]
    exact ⟨h y (List.mem_cons_self y ys),
      ih (fun x hx => h x (List.mem_cons_of_mem y hx))⟩

lemma le_foldr_max (sv : List ℚ) (x : ℚ) (hx : x ∈ sv) :
    x ≤ sv.foldr max 0 := by
  induction sv with
  | nil => cases hx
  | cons y ys ih =>
    rcases List.mem_cons.mp hx with h | h
    · simp [h, le_max_iff]
    · simp only [List.foldr_cons, le_max_iff]
      exact Or.inr (ih h)

lemma maxSingular_eq_head (sv : List ℚ) (largest : ℚ)
    (hhead : sv.head? = some largest) (hmax : ∀ x ∈ sv, x ≤ largest)
    (h0 : 0 ≤ largest) : maxSingular sv = largest := by
  have hmem : largest ∈ sv := by
    cases sv with
    | nil => simp at hhead
    | cons y ys =>
      simp only [List.head?_cons, Option.some.injEq] at hhead
      exact hhead ▸ List.mem_cons_self y ys
  exact le_antisymm (foldr_max_le sv largest h0 hmax) (le_foldr_max sv largest hmem)

lemma pyGet_nonneg {α : Type} (xs : List α) (i : ℤ) (h : 0 ≤ i) :
    pyGet xs i = xs.get? i.toNat := by
  simp [pyGet, h]

lemma pySet_eq_some_nonneg {α : Type} {xs ys : List α} {i : ℤ} {v : α}
    (h : 0 ≤ i) :
    pySet xs i v = some ys ↔ i.toNat < xs.length ∧ ys = xs.set i.toNat v := by
  simp only [pySet, if_pos h]
  by_cases hlt : i.toNat < xs.length
  · simp [hlt, eq_comm]
  · simp [hlt]

end TNC

namespace TNC

variable {D : Type}

/-- C3: at a non-terminal step of left_canonise, with the SVD oracle
reporting singular values sv whose first entry is the largest (the SVD
descending convention), the values kept are exactly the spec truncation
rule keptSpecOfClaim: divide by the largest value, keep those strictly
greater than the threshold, then cap at chi when chi is positive (so the cap
never restores a value already below the threshold); the new bond axes of U
and V are truncated to the kept count, and the truncated U (bond relabelled
to the right role) is the tensor written at site i. -/
theorem c3_threshold_then_chi_truncation
    (ops : TensorOps D) (m : MatrixProductState D) (i : ℤ) (chi : Nat)
    (threshold norm largest : ℚ) (sv : List ℚ) (t U S V : Tensor D)
    (a b : String × Nat) (r : Nat) (v1 : String) (rv : Nat)
    (vrest : List (String × Nat))
    (hi : 0 ≤ i)
    (ht : pyGet m.data i = some t)
    (hsvd : ops.svd t [m.phys_label, m.left_label] = some (U, S, V))
    (hsv : ops.diagPart S.data = sv)
    (hhead : sv.head? = some largest)
    (hmax : ∀ x ∈ sv, x ≤ largest)
    (h0 : 0 ≤ largest)
    (hU : U.axes = [a, b, ("svd_in", r)])
    (hV : V.axes = (v1, rv) :: vrest)
    (hKr : (keptSpecOfClaim sv threshold chi).length ≤ r)
    (hKv : (keptSpecOfClaim sv threshold chi).length ≤ rv) :
    keptSingularValues (sv.map (fun x => x / largest)) threshold chi
        = keptSpecOfClaim sv threshold chi
    ∧ (∀ x ∈ keptSpecOfClaim sv threshold chi, threshold < x)
    ∧ (chi ≠ 0 → (keptSpecOfClaim sv threshold chi).length ≤ chi)
    ∧ sliceThirdAxis ops U (keptSpecOfClaim sv threshold chi).length = some
        { axes := [a, b, ("svd_in", (keptSpecOfClaim sv threshold chi).length)],
          data := ops.sliceThird U.data
            (keptSpecOfClaim sv threshold chi).length }
    ∧ sliceFirstAxis ops V (keptSpecOfClaim sv threshold chi).length = some
        { axes := (v1, (keptSpecOfClaim sv threshold chi).length) :: vrest,
          data := ops.sliceFirst V.data
            (keptSpecOfClaim sv threshold chi).length }
    ∧ ∀ m2 norm2,
        leftCanoniseStep ops m i chi threshold norm = some (m2, norm2) →
        norm2 = norm * largest ∧
        pyGet m2.data i = some (replaceLabel
          { axes := [a, b,
              ("svd_in", (keptSpecOfClaim sv threshold chi).length)],
            data := ops.sliceThird U.data
              (keptSpecOfClaim sv threshold chi).length }
          "svd_in" m.right_label) := by
  have hmaxeq := maxSingular_eq_head sv largest hhead hmax h0
  have h1 : keptSingularValues (sv.map (fun x => x / largest)) threshold chi
      = keptSpecOfClaim sv threshold chi := by
    unfold keptSingularValues keptSpecOfClaim
    rw [hmaxeq]
    by_cases hc : chi = 0 <;> simp [hc]
  have h2 : ∀ x ∈ keptSpecOfClaim sv threshold chi, threshold < x := by
    intro x hx
    unfold keptSpecOfClaim at hx
    by_cases hc : chi = 0
    · rw [if_pos hc] at hx
      simpa using (List.mem_filter.mp hx).2
    · rw [if_neg hc] at hx
      simpa using (List.mem_filter.mp (List.mem_of_mem_take hx)).2
  have h3 : chi ≠ 0 → (keptSpecOfClaim sv threshold chi).length ≤ chi := by
    intro hc
    unfold keptSpecOfClaim
    rw [if_neg hc]
    simpa using Nat.min_le_left chi _
  have h4 : sliceThirdAxis ops U (keptSpecOfClaim sv threshold chi).length
      = some { axes := [a, b,
                 ("svd_in", (keptSpecOfClaim sv threshold chi).length)],
               data := ops.sliceThird U.data
                 (keptSpecOfClaim sv threshold chi).length } := by
    simp [sliceThirdAxis, hU, Nat.min_eq_left hKr]
  have h5 : sliceFirstAxis ops V (keptSpecOfClaim sv threshold chi).length
      = some { axes := (v1, (keptSpecOfClaim sv threshold chi).length) :: vrest,
               data := ops.sliceFirst V.data
                 (keptSpecOfClaim sv threshold chi).length } := by
    simp [sliceFirstAxis, hV, Nat.min_eq_left hKv]
  refine ⟨h1, h2, h3, h4, h5, ?_⟩
  intro m2 norm2 hstep
  simp only [leftCanoniseStep, ht, hsvd, hsv, hhead, h1, h4,
    Option.bind_eq_bind, Option.some_bind] at hstep
  simp only [Option.bind_eq_some] at hstep
  obtain ⟨S2, hS2, V2, hV2, d1, hd1, nb, hnb, c1, hc1, c2, hc2, d2, hd2, hfin⟩ :=
    hstep
  simp only [Option.pure_def, Option.some.injEq, Prod.mk.injEq] at hfin
  obtain ⟨hm2, hn2⟩ := hfin
  refine ⟨hn2.symm, ?_⟩
  obtain ⟨hlen1, hd1e⟩ := (pySet_eq_some_nonneg hi).mp hd1
  have hi1 : (0 : ℤ) ≤ i + 1 := by omega
  obtain ⟨hlen2, hd2e⟩ := (pySet_eq_some_nonneg hi1).mp hd2
  have htn : (i + 1).toNat = i.toNat + 1 := by omega
  subst hd1e
  subst hd2e
  rw [← hm2]
  simp only [pyGet_nonneg _ _ hi, htn]
  rw [List.get?_set_ne _ _ (by omega), List.get?_set_eq_of_lt _ hlen1]

end TNC

namespace TNC

variable {D : Type}

/-- C3 witness: the truncation theorem applied at a concrete two-site chain
with singular values (1, 1/2), threshold 0 and chi = 1. -/
theorem c3_witness :
    keptSingularValues ([1, (1 : ℚ)/2].map (fun x => x / 1)) 0 1
        = keptSpecOfClaim [1, (1 : ℚ)/2] 0 1
    ∧ ∀ x ∈ keptSpecOfClaim [1, (1 : ℚ)/2] 0 1, (0 : ℚ) < x := by
  have h := c3_threshold_then_chi_truncation (unitOps [1, (1 : ℚ)/2]) mps2
    0 1 0 1 1 [1, (1 : ℚ)/2]
    ⟨[("P", 2), ("L", 1), ("R", 2)], ()⟩
    ⟨[("P", 2), ("L", 1), ("svd_in", 2)], ()⟩
    ⟨[("svd_in", 2), ("svd_out", 2)], ()⟩
    ⟨[("svd_out", 2), ("R", 2)], ()⟩
    ("P", 2) ("L", 1) 2 "svd_out" 2 [("R", 2)]
    (by decide) (by decide) (by with_unfolding_all decide)
    (by with_unfolding_all decide) (by with_unfolding_all decide)
    (by with_unfolding_all decide) (by with_unfolding_all decide)
    rfl rfl (by with_unfolding_all decide) (by with_unfolding_all decide)
  exact ⟨h.1, h.2.1⟩

/-- The iterated full left-to-right passes of variational_compress_mps in
the Option monad: zero iterations return the ansatz, k+1 iterations run one
full pass and then k more. -/
def sweepIter (ops : TensorOps D) (mpsData : List (Tensor D)) (n : Nat) :
    Nat → MatrixProductState D → Option (MatrixProductState D)
  | 0, s => some s
  | k + 1, s => (sweepOnce ops mpsData n s).bind (sweepIter ops mpsData n k)

/-- The prefix of a pass of variational_compress_mps: update sites
0, 1, ..., k-1 in order. -/
def updateSitesUpTo (ops : TensorOps D) (mpsData : List (Tensor D)) (n : Nat)
    (k : Nat) (s : MatrixProductState D) : Option (MatrixProductState D) :=
  (List.range k).foldlM (fun st i => do
      let t ← siteUpdate ops mpsData n st.data i
      let d ← pySet st.data (i : ℤ) t
      pure { st with data := d }) s

lemma foldlM_const_sweep (ops : TensorOps D) (mpsData : List (Tensor D))
    (n : Nat) :
    ∀ (l : List Nat) (s : MatrixProductState D),
      l.foldlM (fun st (_ : Nat) => sweepOnce ops mpsData n st) s
        = sweepIter ops mpsData n l.length s := by
  intro l
  induction l with
  | nil => intro s; rfl
  | cons x xs ih =>
    intro s
    simp only [List.foldlM_cons, List.length_cons, sweepIter]
    cases h : sweepOnce ops mpsData n s with
    | none => simp [h]
    | some s2 => simp [h, ih]

lemma variationalCompress_eq_bind (ops : TensorOps D)
    (m : MatrixProductState D) (chi mi : Nat) :
    variationalCompressMps ops m chi mi =
      (svdCompressMps ops m chi (1 / 1000000000000000) false).bind
        (sweepIter ops m.data m.data.length mi) := by
  show (svdCompressMps ops m chi (1 / 1000000000000000) false).bind
      (fun seed => (List.range mi).foldlM
        (fun s _k => sweepOnce ops m.data m.data.length s) seed) = _
  cases h : svdCompressMps ops m chi (1 / 1000000000000000) false with
  | none => rfl
  | some seed =>
    simp only [Option.some_bind]
    rw [foldlM_const_sweep ops m.data m.data.length (List.range mi) seed,
      List.length_range]

/-- C7: variational_compress_mps seeds its ansatz with the direct
SVD-compressed chain at bond chi (threshold 10**-15, no normalisation), then
performs exactly maxIter full left-to-right passes: the result is the
maxIter-fold iteration of the full pass on the seed, with no interior
convergence check (one more sweep always prepends exactly one full pass),
and each pass updates sites 0 up to n-1 in order (a pass over k+1 sites is
the pass over the first k sites followed by the update of site k). -/
theorem c7_variational_is_iterated_sweeps (ops : TensorOps D)
    (m : MatrixProductState D) (chi maxIter : Nat) :
    variationalCompressMps ops m chi maxIter =
      (svdCompressMps ops m chi (1 / 1000000000000000) false).bind
        (sweepIter ops m.data m.data.length maxIter)
    ∧ (∀ s, sweepIter ops m.data m.data.length (maxIter + 1) s =
        (sweepOnce ops m.data m.data.length s).bind
          (sweepIter ops m.data m.data.length maxIter))
    ∧ (∀ s, sweepOnce ops m.data m.data.length s =
        updateSitesUpTo ops m.data m.data.length m.data.length s)
    ∧ (∀ k s, updateSitesUpTo ops m.data m.data.length (k + 1) s =
        (updateSitesUpTo ops m.data m.data.length k s).bind (fun st =>
          (siteUpdate ops m.data m.data.length st.data k).bind (fun t =>
            (pySet st.data (k : ℤ) t).bind (fun d =>
              some { st with data := d })))) := by
  refine ⟨variationalCompress_eq_bind ops m chi maxIter, fun s => rfl,
    fun s => rfl, ?_⟩
  · intro k s
    simp only [updateSitesUpTo, List.range_succ, List.foldlM_append,
      List.foldlM_cons, List.foldlM_nil]
    cases h : (List.range k).foldlM (fun st i => do
        let t ← siteUpdate ops m.data m.data.length st.data i
        let d ← pySet st.data (i : ℤ) t
        pure { st with data := d }) s with
    | none => rfl
    | some st =>
      cases h2 : siteUpdate ops m.data m.data.length st.data k with
      | none => simp [h2]
      | some t =>
        cases h3 : pySet st.data (k : ℤ) t with
        | none => simp [h2, h3]
        | some d => simp [h2, h3]

end TNC

namespace TNC

variable {D : Type}

lemma pyGet_neg_one_of_ne_nil {α : Type} (xs : List α) (h : xs ≠ []) :
    ∃ x, pyGet xs (-1) = some x ∧ x ∈ xs := by
  have hlen : 0 < xs.length := List.length_pos.mpr h
  have hlt : xs.length - 1 < xs.length := by omega
  refine ⟨xs.get ⟨xs.length - 1, hlt⟩, ?_, List.get_mem xs _ hlt⟩
  unfold pyGet
  rw [if_neg (by norm_num), if_pos (by simpa using hlen)]
  have h1 : (-(-1 : ℤ)).toNat = 1 := by norm_num
  rw [h1, List.get?_eq_get hlt]

set_option maxHeartbeats 1000000 in
/-- On a chain whose tensors do not carry the literal label phys, the first
per-site update of variational_compress_mps fails: for one site the physical
index lookup fails, for more sites the very first environment contraction
over the label phys fails. -/
lemma siteUpdate_none_of_no_phys (ops : TensorOps D)
    (mpsData : List (Tensor D)) (n : Nat) (sd : List (Tensor D))
    (hn : 1 ≤ n) (hne : sd ≠ []) (hlab : ∀ t ∈ sd, "phys" ∉ t.labels) :
    siteUpdate ops mpsData n sd 0 = none := by
  by_cases h1 : n = 1
  · subst h1
    obtain ⟨t0, ts, rfl⟩ : ∃ t0 ts, sd = t0 :: ts := by
      cases sd with
      | nil => exact absurd rfl hne
      | cons a l => exact ⟨a, l, rfl⟩
    have hf : t0.labels.findIdx? (fun l => l = "phys") = none := by
      rw [List.findIdx?_eq_none_iff]
      intro x hx
      simp only [decide_eq_false_iff_not]
      intro he
      exact hlab t0 (List.mem_cons_self _ _) (he ▸ hx)
    have hkey : ∀ g : Nat → Option (Tensor D),
        Option.bind (t0.labels.findIdx? (fun l => l = "phys")) g = none := by
      intro g
      rw [hf]
      rfl
    exact hkey _
  · have h2 : ¬ ((0 : Nat) = n - 1) := by omega
    obtain ⟨tl, hget, hmem⟩ := pyGet_neg_one_of_ne_nil sd hne
    have hcontains : tl.labels.contains "phys" = false := by
      simpa using hlab tl hmem
    have henv : envRightBoundary ops sd (ccOfAnsatz ops sd) n 0 = none := by
      unfold envRightBoundary
      rw [hget]
      simp only [Option.bind_eq_bind, Option.some_bind]
      obtain ⟨tc, hgetc, _⟩ := pyGet_neg_one_of_ne_nil (ccOfAnsatz ops sd)
        (by simpa [ccOfAnsatz] using hne)
      rw [hgetc]
      simp only [Option.bind_eq_bind, Option.some_bind]
      have hc : contract ops tl tc ["phys"] ["phys"] = none := by
        unfold contract
        rw [if_neg (by simp [List.all_cons, hlab tl hmem])]
      rw [hc]
      rfl
    unfold siteUpdate
    rw [if_pos h2]
    have hkey2 : ∀ g : Option (Tensor D) → Option (Tensor D),
        Option.bind (Option.map some
          (envRightBoundary ops sd (ccOfAnsatz ops sd) n 0)) g = none := by
      intro g
      rw [henv]
      rfl
    exact hkey2 _

lemma sweep_foldlM_rebind (ops : TensorOps D) (d : List (Tensor D)) (n : Nat)
    (l r p : String) :
    ∀ (idxs : List Nat) (s : MatrixProductState D),
      idxs.foldlM (fun (st : MatrixProductState D) (i : Nat) => do
          let t ← siteUpdate ops d n st.data i
          let dd ← pySet st.data (i : ℤ) t
          pure { st with data := dd })
        { data := s.data, left_label := l, right_label := r, phys_label := p }
      = (idxs.foldlM (fun (st : MatrixProductState D) (i : Nat) => do
          let t ← siteUpdate ops d n st.data i
          let dd ← pySet st.data (i : ℤ) t
          pure { st with data := dd }) s).map
          (fun (st : MatrixProductState D) =>
            { data := st.data, left_label := l, right_label := r,
              phys_label := p }) := by
  intro idxs
  induction idxs with
  | nil => intro s; rfl
  | cons i idxs ih =>
    intro s
    simp only [List.foldlM_cons]
    cases hsu : siteUpdate ops d n s.data i with
    | none => simp [hsu]
    | some t =>
      cases hps : pySet s.data (i : ℤ) t with
      | none => simp [hsu, hps]
      | some dd =>
        simp only [hsu, hps, Option.some_bind, Option.bind_eq_bind]
        exact ih { s with data := dd }

/-- C9: the sweep of variational_compress_mps addresses every axis by the
literal strings left/right/phys rather than through the chain label
bindings: (1) on any input whose SVD-compressed seed carries no phys label
on any tensor (as happens whenever the chain labels differ from the
literals), the whole call fails with an error instead of performing the
per-site contractions and solves; (2) a full pass ignores the ansatz chain
label bindings entirely - rebinding them commutes with the pass. -/
theorem c9_sweep_uses_literal_labels (ops : TensorOps D)
    (m : MatrixProductState D) (chi mi : Nat) (seed : MatrixProductState D)
    (hmi : 1 ≤ mi) (hn : 1 ≤ m.data.length)
    (hseed : svdCompressMps ops m chi (1 / 1000000000000000) false
      = some seed)
    (hne : seed.data ≠ [])
    (hlab : ∀ t ∈ seed.data, "phys" ∉ t.labels) :
    variationalCompressMps ops m chi mi = none
    ∧ ∀ (d : List (Tensor D)) (n : Nat) (s : MatrixProductState D)
        (l r p : String),
        sweepOnce ops d n
            { data := s.data, left_label := l, right_label := r,
              phys_label := p }
          = (sweepOnce ops d n s).map (fun st =>
              { data := st.data, left_label := l, right_label := r,
                phys_label := p }) := by
  constructor
  · rw [variationalCompress_eq_bind, hseed]
    simp only [Option.some_bind]
    obtain ⟨k, rfl⟩ : ∃ k, mi = k + 1 := ⟨mi - 1, by omega⟩
    have hsw : sweepOnce ops m.data m.data.length seed = none := by
      unfold sweepOnce
      obtain ⟨n2, hn2⟩ : ∃ n2, m.data.length = n2 + 1 :=
        ⟨m.data.length - 1, by omega⟩
      rw [hn2, List.range_succ_eq_map]
      simp only [List.foldlM_cons]
      rw [← hn2, siteUpdate_none_of_no_phys ops m.data m.data.length
        seed.data hn hne hlab]
      rfl
    show sweepIter ops m.data m.data.length (k + 1) seed = none
    unfold sweepIter
    rw [hsw]
    rfl
  · intro d n s l r p
    exact sweep_foldlM_rebind ops d n l r p (List.range n) s

end TNC

namespace TNC

variable {D : Type}

/-- C9 witness: on the concrete chain mps2 with bindings L/R/P, the
SVD-compressed seed carries no phys label, and a variational compression
with one sweep fails. -/
theorem c9_witness :
    svdCompressMps (unitOps [1, (1 : ℚ)/2]) mps2 1 (1 / 1000000000000000)
        false
      = some ⟨[⟨[("R", 1), ("P", 2), ("L", 1)], ()⟩,
               ⟨[("P", 2), ("R", 1), ("L", 1)], ()⟩], "L", "R", "P"⟩
    ∧ variationalCompressMps (unitOps [1, (1 : ℚ)/2]) mps2 1 1 = none := by
  have h : svdCompressMps (unitOps [1, (1 : ℚ)/2]) mps2 1
      (1 / 1000000000000000) false
      = some ⟨[⟨[("R", 1), ("P", 2), ("L", 1)], ()⟩,
               ⟨[("P", 2), ("R", 1), ("L", 1)], ()⟩], "L", "R", "P"⟩ := by
    with_unfolding_all decide
  exact ⟨h, (c9_sweep_uses_literal_labels (unitOps [1, (1 : ℚ)/2]) mps2 1 1 _
    (by decide) (by decide) h (by decide) (by decide)).1⟩

end TNC

namespace TNC

variable {D : Type}

lemma scanFirstDev_eq_some {dev : Nat → Option Bool} {dflt res : Nat} :
    ∀ {l : List Nat}, scanFirstDev dev dflt l = some res →
      ((∀ j ∈ l, dev j = some false) ∧ res = dflt)
      ∨ ∃ l1 l2, l = l1 ++ res :: l2 ∧ (∀ j ∈ l1, dev j = some false)
          ∧ dev res = some true := by
  intro l
  induction l with
  | nil =>
    intro h
    simp only [scanFirstDev, Option.some.injEq] at h
    exact Or.inl ⟨by simp, h.symm⟩
  | cons i rest ih =>
    intro h
    unfold scanFirstDev at h
    cases hb : dev i with
    | none => rw [hb] at h; simp at h
    | some b =>
      rw [hb] at h
      simp only [Option.bind_eq_bind, Option.some_bind] at h
      cases b with
      | true =>
        simp only [if_true, Option.pure_def, Option.some.injEq] at h
        subst h
        exact Or.inr ⟨[], rest, rfl, by simp, hb⟩
      | false =>
        simp only [Bool.false_eq_true, if_false] at h
        rcases ih h with ⟨hall, hres⟩ | ⟨l1, l2, hsplit, hl1, hdev⟩
        · refine Or.inl ⟨?_, hres⟩
          intro j hj
          rcases List.mem_cons.mp hj with rfl | hj2
          · exact hb
          · exact hall j hj2
        · refine Or.inr ⟨i :: l1, l2, by rw [hsplit]; rfl, ?_, hdev⟩
          intro j hj
          rcases List.mem_cons.mp hj with rfl | hj2
          · exact hb
          · exact hl1 j hj2

lemma range_split {n res : Nat} {l1 l2 : List Nat}
    (h : List.range n = l1 ++ res :: l2) :
    res < n ∧ l1 = List.range res := by
  have hlen : l1.length < n := by
    have h2 := congrArg List.length h
    simp at h2
    omega
  have hres : res = l1.length := by
    have h1 : (List.range n).get? l1.length = some res := by
      rw [h, List.get?_append_right (le_refl _)]
      simp
    rw [List.get?_range hlen] at h1
    exact (Option.some.injEq _ _ ▸ h1).symm
  have hl1 : l1 = List.range res := by
    have ht : (List.range n).take l1.length = l1 := by rw [h, List.take_left]
    rw [List.take_range] at ht
    rw [← ht, hres]
    congr 1
    omega
  exact ⟨hres ▸ hlen, hl1⟩

lemma natRangeDown_split {a res : Nat} {l1 l2 : List Nat}
    (h : natRangeDown a = l1 ++ res :: l2) :
    1 ≤ res ∧ res ≤ a ∧ ∀ j, j ∈ l1 ↔ (res < j ∧ j ≤ a) := by
  have hlen : l1.length < a := by
    have h2 := congrArg List.length h
    simp [natRangeDown] at h2
    omega
  have hres : res = a - l1.length := by
    have h1 : (natRangeDown a).get? l1.length = some res := by
      rw [h, List.get?_append_right (le_refl _)]
      simp
    unfold natRangeDown at h1
    rw [List.get?_map, List.get?_range hlen] at h1
    simp only [Option.map_some', Option.some.injEq] at h1
    exact h1.symm
  have hl1 : l1 = (List.range l1.length).map (fun k => a - k) := by
    have ht : (natRangeDown a).take l1.length = l1 := by rw [h, List.take_left]
    unfold natRangeDown at ht
    rw [← List.map_take, List.take_range,
      Nat.min_eq_left (Nat.le_of_lt hlen)] at ht
    exact ht.symm
  refine ⟨by omega, by omega, ?_⟩
  intro j
  rw [hl1]
  simp only [List.mem_map, List.mem_range]
  constructor
  · rintro ⟨k, hk, rfl⟩
    omega
  · rintro ⟨hj1, hj2⟩
    exact ⟨a - j, by omega, by omega⟩

lemma mem_natRangeDown {a j : Nat} : j ∈ natRangeDown a ↔ 1 ≤ j ∧ j ≤ a := by
  unfold natRangeDown
  simp only [List.mem_map, List.mem_range]
  constructor
  · rintro ⟨k, hk, rfl⟩
    omega
  · rintro ⟨h1, h2⟩
    exact ⟨a - j, by omega, by omega⟩

/-- L is the smallest site in 0..N-2 whose deviation test reports a
deviation, and N-1 when no site does. -/
def firstDevSpec (dev : Nat → Option Bool) (N L : Nat) : Prop :=
  (L = N - 1 ∧ ∀ j < N - 1, dev j = some false)
  ∨ (L < N - 1 ∧ dev L = some true ∧ ∀ j < L, dev j = some false)

/-- R is the largest site in 1..N-1 whose deviation test reports a
deviation, and 0 when no site does. -/
def lastDevSpec (dev : Nat → Option Bool) (N R : Nat) : Prop :=
  (R = 0 ∧ ∀ j, 1 ≤ j → j ≤ N - 1 → dev j = some false)
  ∨ (1 ≤ R ∧ R ≤ N - 1 ∧ dev R = some true
     ∧ ∀ j, R < j → j ≤ N - 1 → dev j = some false)

/-- C6: when check_canonical_form_mps(mps, threshold) returns (L, R), L is
the smallest index in 0..N-2 whose contraction with its conjugate over the
physical and left axes deviates from the identity by more than the
threshold (N-1 if none), and R is the largest index in 1..N-1 whose
contraction over the physical and right axes deviates (0 if none).  The
embedding is a pure function of the chain: the inspector never mutates its
input. -/
theorem c6_check_canonical_form_scan (ops : TensorOps D)
    (m : MatrixProductState D) (threshold : ℚ) (L R : Nat)
    (h : checkCanonicalFormMps ops m threshold = some (L, R)) :
    firstDevSpec (devLeftAt ops m (mpsComplexConjugate ops m) threshold)
      m.data.length L
    ∧ lastDevSpec (devRightAt ops m (mpsComplexConjugate ops m) threshold)
      m.data.length R := by
  unfold checkCanonicalFormMps at h
  simp only [Option.bind_eq_bind, Option.bind_eq_some, Option.pure_def,
    Option.some.injEq, Prod.mk.injEq] at h
  obtain ⟨L2, hL, R2, hR, hLeq, hReq⟩ := h
  subst hLeq
  subst hReq
  constructor
  · rcases scanFirstDev_eq_some hL with ⟨hall, hdflt⟩ |
      ⟨l1, l2, hsplit, hl1, hdev⟩
    · refine Or.inl ⟨hdflt, ?_⟩
      intro j hj
      exact hall j (List.mem_range.mpr hj)
    · obtain ⟨hlt, hl1eq⟩ := range_split hsplit
      refine Or.inr ⟨hlt, hdev, ?_⟩
      intro j hj
      exact hl1 j (hl1eq ▸ List.mem_range.mpr hj)
  · rcases scanFirstDev_eq_some hR with ⟨hall, hdflt⟩ |
      ⟨l1, l2, hsplit, hl1, hdev⟩
    · refine Or.inl ⟨hdflt, ?_⟩
      intro j hj1 hj2
      exact hall j (mem_natRangeDown.mpr ⟨hj1, hj2⟩)
    · obtain ⟨h1, h2, hiff⟩ := natRangeDown_split hsplit
      refine Or.inr ⟨h1, h2, hdev, ?_⟩
      intro j hj1 hj2
      exact hl1 j ((hiff j).mpr ⟨hj1, hj2⟩)

/-- C6 witness: on the concrete chain mps2 whose deviation tests all report
no deviation, the inspector returns (1, 0) = (N-1, 0) and the
characterisation holds. -/
theorem c6_witness :
    checkCanonicalFormMps (unitOps [1, (1 : ℚ)/2]) mps2 defaultThreshold
      = some (1, 0)
    ∧ firstDevSpec (devLeftAt (unitOps [1, (1 : ℚ)/2]) mps2
        (mpsComplexConjugate (unitOps [1, (1 : ℚ)/2]) mps2) defaultThreshold)
        mps2.data.length 1
    ∧ lastDevSpec (devRightAt (unitOps [1, (1 : ℚ)/2]) mps2
        (mpsComplexConjugate (unitOps [1, (1 : ℚ)/2]) mps2) defaultThreshold)
        mps2.data.length 0 := by
  have h : checkCanonicalFormMps (unitOps [1, (1 : ℚ)/2]) mps2
      defaultThreshold = some (1, 0) := by with_unfolding_all decide
  have h2 := c6_check_canonical_form_scan (unitOps [1, (1 : ℚ)/2]) mps2
    defaultThreshold 1 0 h
  exact ⟨h, h2.1, h2.2⟩

end TNC
